import Mathlib

/-!
Verification development for the csng_invariances repository.

The development shallowly embeds the numerical core of the repository:

* `training/mei.py` — the lowpass kernel (`get_lowpass_tensor`), the
  frequency-domain gradient filter (`lowpass_filtering_in_frequency_domain`)
  and the additive update of `naive_gradient_ascent_step`;
* `utility/lin_filter.py` — the `Filter` reshape routines (`_fil_2d`,
  `_fil_4d`), the closed-form ridge/whitened solvers, `Filter.__init__`,
  `Hyperparametersearch.compute_best_parameter` and the two
  `conduct_search` methods.

Arrays are modelled as flat row-major lists of rationals together with a
shape vector; machine floats are modelled by `ℚ` (by `ℝ` where a real
exponent occurs, with the IEEE float power on nonnegative bases — which
produces `+inf` at `0 ** negative` — modelled by `ENNReal.rpow` on
`[0, ∞]`); complex tensors by pairs of rationals; fallible numpy
operations return `Except`.
-/

/-! ### Row-major ndarray model (numpy arrays of `lin_filter.py`) -/

/-- A numpy ndarray: a shape vector and the flat row-major data. -/
structure NDArray where
  shape : List Nat
  data : List ℚ
deriving DecidableEq

/-- `np.reshape`: succeeds exactly when the element count is preserved;
the flat row-major data is unchanged. -/
def npReshape (a : NDArray) (s : List Nat) : Except String NDArray :=
  if a.data.length = s.prod then Except.ok ⟨s, a.data⟩
  else Except.error "ValueError: cannot reshape array"

/-- `np.squeeze`: drops every axis of extent 1; a pure metadata change,
the row-major data is untouched. -/
def npSqueeze (a : NDArray) : NDArray :=
  ⟨a.shape.filter (fun d => d ≠ 1), a.data⟩

/-- Row-major data of the transpose of an `r × c` matrix: the result is
`c × r` with entry `(i, j)` equal to the old entry `(j, i)`. -/
def transposeData (r c : Nat) (d : List ℚ) : List ℚ :=
  (List.range (c * r)).map fun k => d.getD ((k % r) * c + k / r) 0

/-- `np.moveaxis(fil, [0, 1], [1, 0])` as used in `lin_filter.py`: both
call sites apply it to a 2-D array, where it is the matrix transpose. -/
def npMoveaxis01 (a : NDArray) : Except String NDArray :=
  match a.shape with
  | [r, c] => Except.ok ⟨[c, r], transposeData r c a.data⟩
  | _ => Except.error "moveaxis applied to a non 2D array"

/-- `Filter._fil_2d` (lin_filter.py lines 220-228): when the stored filter
is 4-D, squeeze it, reshape to `(neuron_count, dim1*dim2)` and transpose;
otherwise leave it unchanged.  The reshape raises `ValueError` when the
element counts disagree, exactly as numpy does. -/
def fil_2d (neuron_count channels dim1 dim2 : Nat) (fil : NDArray) :
    Except String NDArray :=
  if fil.shape.length = 4 then do
    let f := npSqueeze fil
    let f ← npReshape f [neuron_count, dim1 * dim2]
    npMoveaxis01 f
  else Except.ok fil

/-- `Filter._fil_4d` (lin_filter.py lines 230-246, the post-conflict body):
when the stored filter is 2-D, transpose it and reshape to
`(neuron_count, channels, dim1, dim2)`; otherwise leave it unchanged. -/
def fil_4d (neuron_count channels dim1 dim2 : Nat) (fil : NDArray) :
    Except String NDArray :=
  if fil.shape.length = 2 then do
    let f ← npMoveaxis01 fil
    npReshape f [neuron_count, channels, dim1, dim2]
  else Except.ok fil

/-! ### `Filter.__init__` (lin_filter.py lines 44-94) -/

/-- The four regularization strategies accepted by `Filter.__init__`. -/
def validRegTypes : List String :=
  ["laplace regularized", "ridge regularized", "whitened", "raw"]

/-- The attributes `Filter.__init__` derives from the argument shapes. -/
structure FilterState where
  image_count : Nat
  channels : Nat
  dim1 : Nat
  dim2 : Nat
  neuron_count : Nat
  reg_type : String
deriving DecidableEq

/-- Python tuple indexing `shape[i]`: raises `IndexError` out of range. -/
def tupleIdx (s : List Nat) (i : Nat) : Except String Nat :=
  match s.get? i with
  | some v => Except.ok v
  | none => Except.error "IndexError: tuple index out of range"

/-- `Filter.__init__`: reads `images.shape[0..3]` and `responses.shape[1]`,
then asserts that the regularization type is one of the four options.
No other validation is performed. -/
def Filter_init (imagesShape responsesShape : List Nat) (reg_type : String) :
    Except String FilterState := do
  let image_count ← tupleIdx imagesShape 0
  let channels ← tupleIdx imagesShape 1
  let dim1 ← tupleIdx imagesShape 2
  let dim2 ← tupleIdx imagesShape 3
  let neuron_count ← tupleIdx responsesShape 1
  if reg_type ∈ validRegTypes then
    Except.ok ⟨image_count, channels, dim1, dim2, neuron_count, reg_type⟩
  else
    Except.error "AssertionError: No valid type option."

/-! ### Closed-form solvers (lin_filter.py lines 261-295)

`np.linalg.pinv` is an external LAPACK routine; the solvers are embedded
parametrically in it. -/

/-- `Filter._whitened_filter`: `pinv(X^T X) (X^T Y)`. -/
def whitened_filter {m p n : Nat}
    (pinv : Matrix (Fin p) (Fin p) ℚ → Matrix (Fin p) (Fin p) ℚ)
    (X : Matrix (Fin m) (Fin p) ℚ) (Y : Matrix (Fin m) (Fin n) ℚ) :
    Matrix (Fin p) (Fin n) ℚ :=
  pinv (X.transpose * X) * (X.transpose * Y)

/-- `Filter._ridge_regularized_filter`:
`pinv(X^T X + reg_factor * identity) (X^T Y)`. -/
def ridge_regularized_filter {m p n : Nat}
    (pinv : Matrix (Fin p) (Fin p) ℚ → Matrix (Fin p) (Fin p) ℚ)
    (X : Matrix (Fin m) (Fin p) ℚ) (Y : Matrix (Fin m) (Fin n) ℚ)
    (reg_factor : ℚ) : Matrix (Fin p) (Fin n) ℚ :=
  pinv (X.transpose * X + reg_factor • (1 : Matrix (Fin p) (Fin p) ℚ)) *
    (X.transpose * Y)

/-! ### Complex tensors and the 4-point discrete Fourier transform

`torch.fft.fft2` / `torch.fft.ifft2` act on complex tensors.  Complex
values are modelled as pairs of rationals.  For a `1 × 4` image the 2-D
transform degenerates to the 4-point DFT of the single row, whose twiddle
factors are exactly the powers of `i`, so the transform is exactly
representable over `ℚ`. -/

/-- A complex scalar with rational real and imaginary parts. -/
structure QC where
  re : ℚ
  im : ℚ
deriving DecidableEq

instance : Add QC := ⟨fun a b => ⟨a.re + b.re, a.im + b.im⟩⟩

instance : Mul QC := ⟨fun a b => ⟨a.re * b.re - a.im * b.im, a.re * b.im + a.im * b.re⟩⟩

/-- The complex zero. -/
def QC.zero : QC := ⟨0, 0⟩

/-- Embed a real (rational) scalar as a complex one. -/
def QC.ofQ (q : ℚ) : QC := ⟨q, 0⟩

/-- Multiply a complex scalar by a real one. -/
def QC.mulQ (z : QC) (q : ℚ) : QC := ⟨z.re * q, z.im * q⟩

/-- Scale a complex scalar by a real factor. -/
def QC.scale (q : ℚ) (z : QC) : QC := ⟨q * z.re, q * z.im⟩

/-- The 4-point forward DFT, `X k = sum n, x n * (-i)^(k*n)`, written out
with its exact twiddle factors. -/
def dft4 (x : List QC) : List QC :=
  let a := x.getD 0 QC.zero
  let b := x.getD 1 QC.zero
  let c := x.getD 2 QC.zero
  let d := x.getD 3 QC.zero
  [a + b + c + d,
   a + b * ⟨0, -1⟩ + c * ⟨-1, 0⟩ + d * ⟨0, 1⟩,
   a + b * ⟨-1, 0⟩ + c + d * ⟨-1, 0⟩,
   a + b * ⟨0, 1⟩ + c * ⟨-1, 0⟩ + d * ⟨0, -1⟩]

/-- The 4-point inverse DFT, `x n = (1/4) * sum k, X k * i^(k*n)`. -/
def idft4 (X : List QC) : List QC :=
  let A := X.getD 0 QC.zero
  let B := X.getD 1 QC.zero
  let C := X.getD 2 QC.zero
  let D := X.getD 3 QC.zero
  [QC.scale (1/4) (A + B + C + D),
   QC.scale (1/4) (A + B * ⟨0, 1⟩ + C * ⟨-1, 0⟩ + D * ⟨0, -1⟩),
   QC.scale (1/4) (A + B * ⟨-1, 0⟩ + C + D * ⟨-1, 0⟩),
   QC.scale (1/4) (A + B * ⟨0, -1⟩ + C * ⟨-1, 0⟩ + D * ⟨0, 1⟩)]

/-- `tensor.mean()` for a rational vector. -/
def qmean (l : List ℚ) : ℚ := l.sum / l.length

/-- `lowpass_filtering_in_frequency_domain` (mei.py lines 45-61) for a
`1 × 4` image row: normalize the lowpass mask by its mean, take the
forward transform of the gradient, multiply elementwise, and return the
inverse transform unchanged. -/
def lowpass_filtering_row (image_grad lowpass : List ℚ) : List QC :=
  let f := lowpass.map fun v => v / qmean lowpass
  let pp := dft4 (image_grad.map QC.ofQ)
  let out := idft4 (List.zipWith QC.mulQ pp f)
  out

/-- The spec's composite for the frequency-domain filter, written as the
single expression `ifft2 (fft2 G * (L / mean L))`. -/
def spec_frequency_filter (G L : List ℚ) : List QC :=
  idft4 (List.zipWith QC.mulQ (dft4 (G.map QC.ofQ)) (L.map fun v => v / qmean L))

/-! ### The gradient-ascent additive update (mei.py lines 94-117) -/

/-- `torch.abs(g).mean()`. -/
def meanAbs (g : List ℚ) : ℚ := (g.map fun x => |x|).sum / g.length

/-- The epsilon constant `1e-12` of `naive_gradient_ascent_step`. -/
def epsilon : ℚ := 1 / 10 ^ 12

/-- The additive term the code applies to the image (mei.py lines 111-112):
`(lr / torch.abs(image.grad).mean() + 1e-12) * (step_gain / 255) * image.grad`.
The raw gradient is used, and `1e-12` is added to the quotient. -/
def naive_update_term (image_grad : List ℚ) (step_gain lr : ℚ) : List ℚ :=
  image_grad.map fun x => (lr / meanAbs image_grad + epsilon) * (step_gain / 255) * x

/-- Modelled from the spec: the additive term the contract requires — the
lowpass-filtered gradient scaled by `lr / (mean |raw_grad| + 1e-12)` times
`step_gain / 255`, with epsilon inside the denominator. -/
def spec_update_term (image_grad : List ℚ) (filtered_grad : List QC)
    (step_gain lr : ℚ) : List QC :=
  filtered_grad.map fun z =>
    QC.scale (lr / (meanAbs image_grad + epsilon) * (step_gain / 255)) z

/-! ### The lowpass kernel (mei.py lines 13-42)

The `arange`/`minimum` arithmetic is over `ℝ`.  The float power `**` with
the real exponent `alpha` follows IEEE `pow`, whose nonnegative-base
semantics (`0 ** 0 = 1`, `0 ** a = 0` for `a > 0`, `0 ** a = +inf` for
`a < 0`, `x ** a = exp(a * log x)` for `x > 0`) is exactly
`ENNReal.rpow` on `[0, ∞]`; the `+inf` that torch produces at
`0.0 ** negative` is the value `⊤`, and `1 / max(1, ⊤) = 0` as in float
arithmetic. -/

/-- `tw`: elementwise minimum of `arange(0, W)` and `arange(W-1, -1, -1)`. -/
noncomputable def tw (W : Nat) : List ℝ :=
  (List.range W).map fun (x : Nat) => min (x : ℝ) ((W : ℝ) - 1 - (x : ℝ))

/-- `th`: elementwise minimum of `arange(0, H)` and `arange(H-1, -1, -1)`. -/
noncomputable def th (H : Nat) : List ℝ :=
  (List.range H).map fun (y : Nat) => min (y : ℝ) ((H : ℝ) - 1 - (y : ℝ))

/-- `get_lowpass_tensor`: the `H × W` table
`1 / max(1, (tw[x]^2 + th[y]^2) ** alpha)` with rows indexed by `y` and
columns by `x`; the power is the IEEE float power on the nonnegative
base, i.e. `ENNReal.rpow`. -/
noncomputable def get_lowpass_tensor (H W : Nat) (alpha : ℝ) :
    List (List ENNReal) :=
  (th H).map fun hv => (tw W).map fun wv =>
    1 / max 1 (ENNReal.ofReal (wv ^ 2 + hv ^ 2) ^ alpha)

/-- Entry `(y, x)` of the lowpass table. -/
noncomputable def lowpassEntry (H W : Nat) (alpha : ℝ) (y x : Nat) : ENNReal :=
  ((get_lowpass_tensor H W alpha).getD y []).getD x 0

/-- The spec's closed form for the lowpass kernel entry:
`1 / max(1, (min(x, W-1-x)^2 + min(y, H-1-y)^2)^alpha)`, with the same
IEEE reading of the power. -/
noncomputable def lowpassSpecEntry (H W : Nat) (alpha : ℝ) (y x : Nat) :
    ENNReal :=
  1 / max 1 (ENNReal.ofReal ((min (x : ℝ) ((W : ℝ) - 1 - (x : ℝ))) ^ 2 +
    (min (y : ℝ) ((H : ℝ) - 1 - (y : ℝ))) ^ 2) ^ alpha)

/-! ### `Hyperparametersearch.compute_best_parameter`
(lin_filter.py lines 490-523) -/

/-- `df.max(axis=1)` for one row: the maximum entry (pandas row max). -/
def listMax : List ℚ → ℚ
  | [] => 0
  | h :: t => t.foldl max h

/-- One row of `df_params[mask]` after dropping the `NaN` entries: the
parameter entries at the positions where the correlation row attains `m`,
kept in column order. -/
def maskedRow (ps cs : List ℚ) (m : ℚ) : List ℚ :=
  (ps.zip cs).filterMap fun pc => if pc.2 = m then some pc.1 else none

/-- `self.df_params[mask].values.flatten()` followed by the `NaN` filter
`masked[masked == masked.astype(float)]`: the row-major concatenation of
the per-row masked entries. -/
def bestHyperparameters (params corrs : List (List ℚ)) : List ℚ :=
  (params.zip corrs).flatMap fun pc => maskedRow pc.1 pc.2 (listMax pc.2)

/-- `compute_best_parameter`: mask the parameter table by row maxima of
the correlation table, flatten, drop `NaN`, and reshape to a
`neuron_count × 1` column (the reshape — and hence the whole call — fails
unless exactly `neuron_count` entries survive); the per-neuron
correlations are the row maxima, the average correlation their mean.
Returns `(neurons, hyperparameters, single_neuron_correlations, avg)`. -/
def computeBestParameter (neuron_count : Nat) (params corrs : List (List ℚ)) :
    Option (List Nat × List ℚ × List ℚ × ℚ) :=
  let hyperparameters := bestHyperparameters params corrs
  let sncs := corrs.map listMax
  if hyperparameters.length = neuron_count then
    if sncs.length = neuron_count then
      some (List.range neuron_count, hyperparameters, sncs, qmean sncs)
    else none
  else none

/-! ### `conduct_search` (lin_filter.py lines 543-568 and 589-605) -/

/-- A representative list of public attributes of the `pandas` module;
`self` is not among them, so `pd.self` raises `AttributeError`. -/
def pandas_public_attrs : List String :=
  ["DataFrame", "Series", "Index", "read_csv", "concat", "merge"]

/-- Python attribute access `getattr(pd, name)` on the pandas module. -/
def pd_getattr (name : String) : Except String String :=
  if name ∈ pandas_public_attrs then Except.ok name
  else Except.error ("AttributeError: module pandas has no attribute " ++ name)

/-- `np.hstack((self.neurons, self.params, self.corrs))`. -/
def searchTable (neuron_count : Nat) (params corrs : List (List ℚ)) :
    List (List ℚ) :=
  (List.range neuron_count).map fun (i : Nat) =>
    ((i : ℚ) :: params.getD i []) ++ corrs.getD i []

/-- `GlobalHyperparametersearch.conduct_search`: one correlation per
candidate factor (shared by all neurons), then the tables; building
`self.df_params` evaluates `pd.self.report_dataFrame`, whose attribute
access `pd.self` fails. -/
def conduct_search_global (trainPredictCorr : ℚ → ℚ) (reg_factors : List ℚ)
    (neuron_count : Nat) : Except String (List (List ℚ)) := do
  let c := reg_factors.map trainPredictCorr
  let params := List.replicate neuron_count reg_factors
  let corrs := List.replicate neuron_count c
  let _df_params ← pd_getattr "self"
  let _df_corrs ← pd_getattr "self"
  Except.ok (searchTable neuron_count params corrs)

/-- `IndividualHyperparametersearch.conduct_search`: per-neuron
correlations per candidate factor, then the same failing table build. -/
def conduct_search_individual (trainPredictSingle : ℚ → List ℚ)
    (reg_factors : List ℚ) (neuron_count : Nat) :
    Except String (List (List ℚ)) := do
  let cols := reg_factors.map trainPredictSingle
  let params := (List.range neuron_count).map fun _ => reg_factors
  let corrs := (List.range neuron_count).map fun i =>
    cols.map fun col => col.getD i 0
  let _df_params ← pd_getattr "self"
  let _df_corrs ← pd_getattr "self"
  Except.ok (searchTable neuron_count params corrs)

/-! ### The verbatim source of `Filter._fil_4d` (lin_filter.py 230-246) -/

/-- Lines 230-246 of `utility/lin_filter.py`, verbatim. -/
def fil_4d_source_lines : List String :=
  ["    def _fil_4d(self):",
   "<<<<<<< HEAD",
   "        \"\"\"Reshape filter dataset to 4D representation.\"\"\"",
   "        self.fil = self.fil.numpy()",
   "=======",
   "        \"\"\"Reshape filter self.report_dataset to 4D representation.\"\"\"",
   ">>>>>>> e69bf1503673fd173a6ae273fb835fc7625eea48",
   "        if len(self.fil.shape) == 2:",
   "            if torch.is_tensor(self.fil):",
   "                self.fil = self.fil.numpy()",
   "            self.fil = np.moveaxis(self.fil, [0, 1], [1, 0])",
   "            self.fil = self.fil.reshape(",
   "                self.neuron_count,",
   "                self.channels,",
   "                self.dim1,",
   "                self.dim2,",
   "            )"]

/-- A git conflict-begin marker line: `<<<<<<< HEAD`. -/
def conflictBegin : String := "<<<<<<< HEAD"

/-- The git conflict-separator marker line. -/
def conflictSep : String := "======="

/-- The git conflict-end marker line of this conflict. -/
def conflictEnd : String := ">>>>>>> e69bf1503673fd173a6ae273fb835fc7625eea48"

/-- A source snippet holds an unresolved git merge conflict when all three
marker lines occur in it. -/
def hasUnresolvedConflict (lines : List String) : Prop :=
  conflictBegin ∈ lines ∧ conflictSep ∈ lines ∧ conflictEnd ∈ lines


/-! ## Helper lemmas -/

/-- The transpose of an `r × c` row-major data list has `c * r` entries. -/
theorem transposeData_length (r c : Nat) (d : List ℚ) :
    (transposeData r c d).length = c * r := by
  simp [transposeData]

/-- Transposing a row-major `r × c` data list twice gives it back. -/
theorem transposeData_involution (r c : Nat) (d : List ℚ)
    (h : d.length = r * c) :
    transposeData c r (transposeData r c d) = d := by
  apply List.ext_getElem
  · simp [transposeData, h, Nat.mul_comm]
  · intro k hk1 hk2
    have hrc : k < r * c := by rw [← h]; exact hk2
    have hc : 0 < c := by
      rcases Nat.eq_zero_or_pos c with h0 | h0
      · rw [h0, Nat.mul_zero] at hrc; omega
      · exact h0
    have hr : 0 < r := by
      rcases Nat.eq_zero_or_pos r with h0 | h0
      · rw [h0, Nat.zero_mul] at hrc; omega
      · exact h0
    have hkc : k % c < c := Nat.mod_lt _ hc
    have hkdiv : k / c < r := (Nat.div_lt_iff_lt_mul hc).mpr hrc
    have hm : (k % c) * r + k / c < c * r := by
      calc (k % c) * r + k / c < (k % c) * r + r := by omega
        _ = (k % c + 1) * r := by ring
        _ ≤ c * r := Nat.mul_le_mul_right r hkc
    simp only [transposeData]
    rw [List.getElem_map, List.getElem_range]
    have hb : (k % c) * r + k / c <
        ((List.range (c * r)).map
          (fun k => d.getD ((k % r) * c + k / r) 0)).length := by
      simpa using hm
    rw [List.getD_eq_getElem _ _ hb, List.getElem_map, List.getElem_range]
    have hmod : ((k % c) * r + k / c) % r = k / c := by
      rw [Nat.mul_comm (k % c) r, Nat.mul_add_mod, Nat.mod_eq_of_lt hkdiv]
    have hdivr : ((k % c) * r + k / c) / r = k % c := by
      rw [Nat.mul_comm (k % c) r, Nat.mul_add_div hr,
        Nat.div_eq_of_lt hkdiv, Nat.add_zero]
    rw [hmod, hdivr]
    have hk : (k / c) * c + k % c = k := by
      rw [Nat.mul_comm]; exact Nat.div_add_mod k c
    rw [hk, List.getD_eq_getElem _ _ hk2]

/-- `tupleIdx` succeeds on an in-range index and returns that entry. -/
theorem tupleIdx_ok (s : List Nat) (i : Nat) (h : i < s.length) :
    tupleIdx s i = Except.ok (s.getD i 0) := by
  unfold tupleIdx
  rw [List.get?_eq_get h]
  simp [List.get_eq_getElem, List.getD_eq_getElem?_getD, List.getElem?_eq_getElem h]

/-! ## C3 — the 2-D/4-D filter round trip -/

/-- C3, counterexample: for `channels = 2` (shape `[1, 2, 1, 1]`) the claim
fails — the reshape inside `_fil_2d` raises `ValueError`, so the round
trip does not return the original tensor. -/
theorem C3_roundtrip_counterexample :
    (fil_2d 1 2 1 1 ⟨[1, 2, 1, 1], [1, 2]⟩).bind (fil_4d 1 2 1 1) =
      Except.error "ValueError: cannot reshape array" := rfl

/-- C3, amended: for `channels = 1` and consistent data the round trip is
exact in both orders — `_fil_2d` then `_fil_4d` on the 4-D representation,
and `_fil_4d` then `_fil_2d` on the flattened 2-D representation, each
return the original tensor (shape and values). -/
theorem C3_roundtrip_amended (n d1 d2 : Nat) (d : List ℚ)
    (h : d.length = n * (d1 * d2)) :
    (fil_2d n 1 d1 d2 ⟨[n, 1, d1, d2], d⟩).bind (fil_4d n 1 d1 d2) =
      Except.ok ⟨[n, 1, d1, d2], d⟩ ∧
    (fil_4d n 1 d1 d2 ⟨[d1 * d2, n], d⟩).bind (fil_2d n 1 d1 d2) =
      Except.ok ⟨[d1 * d2, n], d⟩ := by
  have hinv := transposeData_involution n (d1 * d2) d h
  have hinv2 := transposeData_involution (d1 * d2) n d (by rw [h]; ring)
  constructor
  · simp [fil_2d, fil_4d, npSqueeze, npReshape, npMoveaxis01, h, hinv,
      transposeData_length, Nat.mul_comm, Bind.bind, Except.bind]
  · simp [fil_2d, fil_4d, npSqueeze, npReshape, npMoveaxis01, h, hinv2,
      transposeData_length, Nat.mul_comm, Bind.bind, Except.bind]

/-- C3, witness for the amended round trip at a concrete tensor. -/
theorem C3_roundtrip_witness :
    (([1, 2, 3, 4] : List ℚ).length = 2 * (1 * 2)) ∧
    (fil_2d 2 1 1 2 ⟨[2, 1, 1, 2], [1, 2, 3, 4]⟩).bind (fil_4d 2 1 1 2) =
      Except.ok ⟨[2, 1, 1, 2], [1, 2, 3, 4]⟩ :=
  ⟨by decide, (C3_roundtrip_amended 2 1 2 [1, 2, 3, 4] (by decide)).1⟩

/-! ## C7 — ridge with factor 0 equals the whitened filter -/

/-- C7: for every design matrix `X`, response matrix `Y` and pseudo-inverse
routine, the ridge-regularized filter with regularization factor `0` equals
the whitened filter: both are `pinv(X^T X) (X^T Y)`. -/
theorem C7_ridge_zero_eq_whitened {m p n : Nat}
    (pinv : Matrix (Fin p) (Fin p) ℚ → Matrix (Fin p) (Fin p) ℚ)
    (X : Matrix (Fin m) (Fin p) ℚ) (Y : Matrix (Fin m) (Fin n) ℚ) :
    ridge_regularized_filter pinv X Y 0 = whitened_filter pinv X Y := by
  unfold ridge_regularized_filter whitened_filter
  rw [zero_smul, add_zero]

/-! ## C8 — no sample-count check in `Filter.__init__` -/

/-- C8, counterexample: a `Filter` built from 2 images but 3 response rows
is constructed successfully — no shape-mismatch error is raised at
construction time. -/
theorem C8_init_counterexample :
    (2 : Nat) ≠ 3 ∧
    Filter_init [2, 1, 3, 3] [3, 4] "raw" =
      Except.ok ⟨2, 1, 3, 3, 4, "raw"⟩ :=
  ⟨by decide, rfl⟩

/-- C8, amended: construction only validates the regularization type (and
that the shape tuples are long enough to index); it succeeds for every
4-D image shape and 2-D response shape with a valid type, regardless of
whether the sample counts agree. -/
theorem C8_init_amended (ims rs : List Nat) (rt : String)
    (h1 : 4 ≤ ims.length) (h2 : 2 ≤ rs.length) (h3 : rt ∈ validRegTypes) :
    Filter_init ims rs rt =
      Except.ok ⟨ims.getD 0 0, ims.getD 1 0, ims.getD 2 0, ims.getD 3 0,
        rs.getD 1 0, rt⟩ := by
  have t0 := tupleIdx_ok ims 0 (by omega)
  have t1 := tupleIdx_ok ims 1 (by omega)
  have t2 := tupleIdx_ok ims 2 (by omega)
  have t3 := tupleIdx_ok ims 3 (by omega)
  have t4 := tupleIdx_ok rs 1 (by omega)
  simp [Filter_init, t0, t1, t2, t3, t4, h3]
  rfl

/-- C8, witness: the amended statement at a concrete mismatched input
(5 image samples versus 7 response samples). -/
theorem C8_init_witness :
    (4 ≤ ([5, 2, 4, 4] : List Nat).length ∧
      2 ≤ ([7, 6] : List Nat).length ∧
      "whitened" ∈ validRegTypes ∧ (5 : Nat) ≠ 7) ∧
    Filter_init [5, 2, 4, 4] [7, 6] "whitened" =
      Except.ok ⟨5, 2, 4, 4, 6, "whitened"⟩ :=
  ⟨⟨by decide, by decide, by decide, by decide⟩,
    C8_init_amended [5, 2, 4, 4] [7, 6] "whitened"
      (by decide) (by decide) (by decide)⟩

/-! ## C9 — unresolved merge conflict in `_fil_4d` -/

/-- C9: the verbatim source of `Filter._fil_4d` (lin_filter.py lines
230-246) contains all three unresolved git merge-conflict marker lines;
a line beginning with `<<<<<<<` is not a valid Python statement, so the
module cannot be parsed or loaded. -/
theorem C9_fil_4d_has_conflict_markers :
    hasUnresolvedConflict fil_4d_source_lines := by
  refine ⟨?_, ?_, ?_⟩ <;> decide

/-! ## C10 — `conduct_search` always raises -/

/-- C10: for every train/validation behaviour and candidate list, both
`GlobalHyperparametersearch.conduct_search` and
`IndividualHyperparametersearch.conduct_search` fail with an
`AttributeError` when building the tables after the per-candidate loop
(`pd.self` is not a pandas attribute), so neither ever returns its search
array. -/
theorem C10_conduct_search_always_fails :
    ∀ (trainPredictCorr : ℚ → ℚ) (trainPredictSingle : ℚ → List ℚ)
      (reg_factors reg_factors2 : List ℚ) (n m : Nat),
    conduct_search_global trainPredictCorr reg_factors n =
      Except.error "AttributeError: module pandas has no attribute self" ∧
    conduct_search_individual trainPredictSingle reg_factors2 m =
      Except.error "AttributeError: module pandas has no attribute self" :=
  fun _ _ _ _ _ _ => ⟨rfl, rfl⟩

/-! ## C4 and C1 — the frequency-domain filter and the update term -/

/-- Addition on `QC`, unfolded. -/
theorem QC_add_def (a b : QC) : a + b = ⟨a.re + b.re, a.im + b.im⟩ := rfl

/-- Multiplication on `QC`, unfolded. -/
theorem QC_mul_def (a b : QC) :
    a * b = ⟨a.re * b.re - a.im * b.im, a.re * b.im + a.im * b.re⟩ := rfl

/-- C4, counterexample: on the gradient row `[1, 0, 0, 0]` with lowpass
mask `[1, 0, 1, 2]`, the filter output has a nonzero imaginary component
(the mask is not conjugate-symmetric), so
`lowpass_filtering_in_frequency_domain` does not return a real-valued
array with the imaginary residue discarded. -/
theorem C4_filter_counterexample :
    ((lowpass_filtering_row [1, 0, 0, 0] [1, 0, 1, 2]).getD 1 QC.zero).im ≠ 0 := by
  norm_num [lowpass_filtering_row, dft4, idft4, qmean, meanAbs,
    QC_add_def, QC_mul_def, QC.mulQ, QC.ofQ, QC.scale, QC.zero]

/-- C4, amended: the filter computes exactly
`ifft2(fft2(G) * (L / mean L))` and returns that complex inverse-transform
output unchanged, with the same shape as the input row; the imaginary
part is retained, and is nonzero for some inputs. -/
theorem C4_filter_amended :
    (∀ G L : List ℚ, lowpass_filtering_row G L = spec_frequency_filter G L) ∧
    (∀ G L : List ℚ, G.length = 4 →
      (lowpass_filtering_row G L).length = G.length) ∧
    (lowpass_filtering_row [1, 0, 0, 0] [1, 0, 1, 2]).getD 1 QC.zero =
      ⟨0, -(1/2)⟩ := by
  refine ⟨fun G L => rfl, fun G L hG => ?_, ?_⟩
  · simp [lowpass_filtering_row, idft4]
    omega
  · norm_num [lowpass_filtering_row, dft4, idft4, qmean,
      QC_add_def, QC_mul_def, QC.mulQ, QC.ofQ, QC.scale, QC.zero]

/-- C4, witness for the shape conjunct of the amended statement. -/
theorem C4_filter_witness :
    (([2, 3, 4, 5] : List ℚ).length = 4) ∧
    (lowpass_filtering_row [2, 3, 4, 5] [1, 1, 1, 1]).length =
      ([2, 3, 4, 5] : List ℚ).length :=
  ⟨by decide, C4_filter_amended.2.1 [2, 3, 4, 5] [1, 1, 1, 1] (by decide)⟩

/-- C1: at the gradient row `[1, 0, 0, 0]` with lowpass mask
`[1, 0, 1, 2]`, `lr = 1` and `step_gain = 1`, the additive update term the
code computes (mei.py lines 111-112: the raw gradient scaled by
`lr / mean(|g|) + 1e-12`, epsilon added outside the division, the filtered
gradient unused) differs from the update term the claim requires (the
lowpass-filtered gradient scaled by `lr / (mean(|g|) + 1e-12)`). -/
theorem C1_update_term_divergence :
    (naive_update_term [1, 0, 0, 0] 1 1).map QC.ofQ ≠
      spec_update_term [1, 0, 0, 0]
        (lowpass_filtering_row [1, 0, 0, 0] [1, 0, 1, 2]) 1 1 := by
  norm_num [naive_update_term, spec_update_term, lowpass_filtering_row,
    dft4, idft4, qmean, meanAbs, epsilon,
    QC_add_def, QC_mul_def, QC.mulQ, QC.ofQ, QC.scale, QC.zero]

/-! ## C6 — the lowpass kernel formula and its corner value -/

/-- Indexing a mapped range with an in-range index. -/
theorem getD_map_range {α : Type} (n y : Nat) (f : Nat → α) (d : α)
    (h : y < n) : ((List.range n).map f).getD y d = f y := by
  have hb : y < ((List.range n).map f).length := by simpa using h
  rw [List.getD_eq_getElem _ _ hb, List.getElem_map, List.getElem_range]

/-- Every in-range entry `(y, x)` of the lowpass table equals the closed
form `1 / max(1, (min(x, W-1-x)^2 + min(y, H-1-y)^2) ** alpha)`. -/
theorem lowpassEntry_eq_spec (H W : Nat) (alpha : ℝ) (y x : Nat)
    (hy : y < H) (hx : x < W) :
    lowpassEntry H W alpha y x = lowpassSpecEntry H W alpha y x := by
  unfold lowpassEntry get_lowpass_tensor th tw lowpassSpecEntry
  rw [List.map_map, getD_map_range H y _ _ hy]
  simp only [Function.comp_apply]
  rw [List.map_map, getD_map_range W x _ _ hx]
  simp only [Function.comp_apply]

/-- C6, counterexample: for the negative exponent `alpha = -1` the
zero-frequency corner entry of `get_lowpass_tensor` is `0`, not `1` —
the float power gives `0.0 ** (-1) = +inf` and `1 / max(1, inf) = 0` —
so the corner does not equal `1` for every `alpha`. -/
theorem C6_corner_counterexample :
    lowpassEntry 2 2 (-1) 0 0 = 0 ∧ (0 : ENNReal) ≠ 1 := by
  constructor
  · rw [lowpassEntry_eq_spec 2 2 (-1) 0 0 (by decide) (by decide)]
    unfold lowpassSpecEntry
    simp only [Nat.cast_zero, Nat.cast_ofNat]
    rw [show ((2 : ℝ) - 1 - 0) = 1 by norm_num,
      min_eq_left (by norm_num : (0 : ℝ) ≤ 1),
      show ((0 : ℝ) ^ 2 + (0 : ℝ) ^ 2) = 0 by norm_num,
      ENNReal.ofReal_zero,
      ENNReal.zero_rpow_of_neg (by norm_num : (-1 : ℝ) < 0),
      max_eq_right (le_top : (1 : ENNReal) ≤ ⊤), ENNReal.div_top]
  · simp

/-- C6, amended: every in-range entry `(y, x)` of `get_lowpass_tensor`
equals `1 / max(1, (min(x, W-1-x)^2 + min(y, H-1-y)^2) ** alpha)` with
`**` the IEEE float power, and the entry at the zero-frequency corner
`(0, 0)` equals `1` for every `alpha >= 0` (for `alpha < 0` the float
power gives `0 ** alpha = +inf` and the corner entry is `0`). -/
theorem C6_lowpass_kernel (H W : Nat) (alpha : ℝ) (y x : Nat)
    (hy : y < H) (hx : x < W) :
    lowpassEntry H W alpha y x = lowpassSpecEntry H W alpha y x ∧
    (y = 0 → x = 0 → 0 ≤ alpha → lowpassEntry H W alpha y x = 1) := by
  refine ⟨lowpassEntry_eq_spec H W alpha y x hy hx, fun hy0 hx0 ha => ?_⟩
  subst hy0; subst hx0
  rw [lowpassEntry_eq_spec H W alpha 0 0 hy hx]
  unfold lowpassSpecEntry
  have hW : (1 : ℝ) ≤ (W : ℝ) := by exact_mod_cast hx
  have hH : (1 : ℝ) ≤ (H : ℝ) := by exact_mod_cast hy
  simp only [Nat.cast_zero]
  rw [min_eq_left (by linarith : (0 : ℝ) ≤ (W : ℝ) - 1 - 0),
    min_eq_left (by linarith : (0 : ℝ) ≤ (H : ℝ) - 1 - 0),
    show ((0 : ℝ) ^ 2 + (0 : ℝ) ^ 2) = 0 by norm_num, ENNReal.ofReal_zero]
  rcases eq_or_lt_of_le ha with h0 | h0
  · rw [← h0, ENNReal.rpow_zero]
    simp
  · rw [ENNReal.zero_rpow_of_pos h0]
    simp

/-- C6, witness: the formula and the corner value at `H = 2`, `W = 3`,
`alpha = 1/2`. -/
theorem C6_lowpass_witness :
    ((0 : Nat) < 2 ∧ (0 : Nat) < 3 ∧ (0 : ℝ) ≤ 1 / 2) ∧
    lowpassEntry 2 3 (1 / 2) 0 0 = lowpassSpecEntry 2 3 (1 / 2) 0 0 ∧
    lowpassEntry 2 3 (1 / 2) 0 0 = 1 :=
  ⟨⟨by decide, by decide, by norm_num⟩,
    (C6_lowpass_kernel 2 3 (1 / 2) 0 0 (by decide) (by decide)).1,
    (C6_lowpass_kernel 2 3 (1 / 2) 0 0 (by decide) (by decide)).2 rfl rfl
      (by norm_num)⟩

/-! ## C2 and C5 — `compute_best_parameter` -/

/-- The accumulator is below a `foldl max`. -/
theorem le_foldl_max (t : List ℚ) (a : ℚ) : a ≤ t.foldl max a := by
  induction t generalizing a with
  | nil => exact le_refl a
  | cons b t ih => exact le_trans (le_max_left a b) (ih (max a b))

/-- Every member of the list is below a `foldl max` over it. -/
theorem mem_le_foldl_max : ∀ (t : List ℚ) (a x : ℚ), x ∈ t → x ≤ t.foldl max a := by
  intro t
  induction t with
  | nil => intro a x hx; cases hx
  | cons b t ih =>
    intro a x hx
    rcases List.mem_cons.mp hx with h | h
    · subst h; exact le_trans (le_max_right a x) (le_foldl_max t (max a x))
    · exact ih (max a b) x h

/-- A `foldl max` is either the accumulator or a member of the list. -/
theorem foldl_max_choice : ∀ (t : List ℚ) (a : ℚ),
    t.foldl max a = a ∨ t.foldl max a ∈ t := by
  intro t
  induction t with
  | nil => intro a; exact Or.inl rfl
  | cons b t ih =>
    intro a
    have hstep : (b :: t).foldl max a = t.foldl max (max a b) := rfl
    rcases ih (max a b) with h | h
    · rcases max_choice a b with h2 | h2
      · exact Or.inl (by rw [hstep, h, h2])
      · exact Or.inr (by rw [hstep, h, h2]; exact List.mem_cons_self b t)
    · exact Or.inr (by rw [hstep]; exact List.mem_cons_of_mem b h)

/-- The row maximum of a nonempty row is attained in the row. -/
theorem listMax_mem (l : List ℚ) (h : l ≠ []) : listMax l ∈ l := by
  cases l with
  | nil => exact absurd rfl h
  | cons b t =>
    simp only [listMax]
    rcases foldl_max_choice t b with h1 | h1
    · rw [h1]; exact List.mem_cons_self b t
    · exact List.mem_cons_of_mem b h1

/-- Every entry of a row is at most its row maximum. -/
theorem le_listMax (l : List ℚ) (x : ℚ) (hx : x ∈ l) : x ≤ listMax l := by
  cases l with
  | nil => cases hx
  | cons b t =>
    simp only [listMax]
    rcases List.mem_cons.mp hx with h | h
    · subst h; exact le_foldl_max t x
    · exact mem_le_foldl_max t b x h

/-- When entry `j` strictly dominates every other entry of the row, the
row maximum is exactly that entry. -/
theorem dominant_listMax (r : List ℚ) (j : Nat) (hj : j < r.length)
    (hdom : ∀ k, k < r.length → k ≠ j → r.getD k 0 < r.getD j 0) :
    listMax r = r.getD j 0 := by
  have hne : r ≠ [] := by
    intro h; rw [h] at hj; simp at hj
  apply le_antisymm
  · have hmem := listMax_mem r hne
    rcases List.mem_iff_getElem.mp hmem with ⟨k, hk, hkeq⟩
    by_cases hkj : k = j
    · subst hkj
      rw [List.getD_eq_getElem r 0 hk, hkeq]
    · have hlt := hdom k hk hkj
      rw [List.getD_eq_getElem r 0 hk, hkeq] at hlt
      exact le_of_lt hlt
  · refine le_listMax r _ ?_
    rw [List.getD_eq_getElem r 0 hj]
    exact List.getElem_mem hj

/-- `maskedRow` on a cons pair keeps the head parameter exactly when the
head correlation equals the mask value. -/
theorem maskedRow_cons (p c : ℚ) (ps cs : List ℚ) (m : ℚ) :
    maskedRow (p :: ps) (c :: cs) m =
      (if c = m then [p] else []) ++ maskedRow ps cs m := by
  simp only [maskedRow, List.zip_cons_cons, List.filterMap_cons]
  by_cases h : c = m
  · simp [h]
  · simp [h]

/-- `maskedRow` is empty when no entry of the row equals the mask value. -/
theorem maskedRow_nil_of_ne : ∀ (ps cs : List ℚ) (m : ℚ),
    (∀ c ∈ cs, c ≠ m) → maskedRow ps cs m = [] := by
  intro ps
  induction ps with
  | nil => intro cs m _; simp [maskedRow]
  | cons p ps ih =>
    intro cs m h
    cases cs with
    | nil => simp [maskedRow]
    | cons c cs =>
      rw [maskedRow_cons, if_neg (h c (List.mem_cons_self c cs))]
      exact ih cs m (fun c2 hc2 => h c2 (List.mem_cons_of_mem c hc2))

/-- When entry `j` of the correlation row strictly dominates, masking the
parameter row by the row maximum keeps exactly the `j`-th parameter. -/
theorem maskedRow_dominant : ∀ (ps r : List ℚ) (j : Nat),
    ps.length = r.length → j < r.length →
    (∀ k, k < r.length → k ≠ j → r.getD k 0 < r.getD j 0) →
    maskedRow ps r (r.getD j 0) = [ps.getD j 0] := by
  intro ps
  induction ps with
  | nil => intro r j hlen hj _; rw [← hlen] at hj; simp at hj
  | cons p ps ih =>
    intro r j hlen hj hdom
    cases r with
    | nil => simp at hj
    | cons c r =>
      cases j with
      | zero =>
        rw [maskedRow_cons]
        have hm : (c :: r).getD 0 0 = c := rfl
        rw [hm, if_pos rfl]
        have hner : ∀ z ∈ r, z ≠ c := by
          intro z hz
          rcases List.mem_iff_getElem.mp hz with ⟨k, hk, hkeq⟩
          have hlt := hdom (k + 1) (by simpa using Nat.succ_lt_succ hk)
            (Nat.succ_ne_zero k)
          have e1 : (c :: r).getD (k + 1) 0 = r.getD k 0 := rfl
          rw [e1, List.getD_eq_getElem r 0 hk, hkeq, hm] at hlt
          exact ne_of_lt hlt
        rw [maskedRow_nil_of_ne ps r c hner]
        simp
      | succ j =>
        rw [maskedRow_cons]
        have hc : ¬(c = (c :: r).getD (j + 1) 0) := by
          have hlt := hdom 0 (by simp) (Nat.succ_ne_zero j).symm
          exact ne_of_lt hlt
        rw [if_neg hc]
        have hlen2 : ps.length = r.length := by simpa using hlen
        have hj2 : j < r.length := by simpa using hj
        have hdom2 : ∀ k, k < r.length → k ≠ j → r.getD k 0 < r.getD j 0 := by
          intro k hk hkj
          exact hdom (k + 1) (by simpa using Nat.succ_lt_succ hk) (by omega)
        have e2 : (c :: r).getD (j + 1) 0 = r.getD j 0 := rfl
        rw [e2, ih r j hlen2 hj2 hdom2]
        simp

/-- Zipping a replicated list with an equally long list pairs the
replicated value with every member. -/
theorem zip_replicate_eq_map (factors : List ℚ) :
    ∀ (l : List (List ℚ)) (n : Nat), l.length = n →
    (List.replicate n factors).zip l = l.map fun r => (factors, r) := by
  intro l
  induction l with
  | nil => intro n hn; subst hn; simp
  | cons r l ih =>
    intro n hn
    cases n with
    | zero => simp at hn
    | succ n =>
      rw [List.replicate_succ]
      simp only [List.zip_cons_cons, List.map_cons]
      rw [ih n (by simpa using hn)]

/-- C2: when one candidate regularization factor (column `j`) strictly
dominates the correlation table for every neuron,
`compute_best_parameter` succeeds, selects that factor for every neuron,
reports each neuron's correlation as its row maximum (the dominant
column), and returns the mean of those per-neuron best correlations. -/
theorem C2_compute_best_parameter (n : Nat) (factors : List ℚ)
    (corrs : List (List ℚ)) (j : Nat)
    (hn : corrs.length = n)
    (hj : j < factors.length)
    (hrow : ∀ r ∈ corrs, r.length = factors.length)
    (hdom : ∀ r ∈ corrs, ∀ k, k < r.length → k ≠ j → r.getD k 0 < r.getD j 0) :
    computeBestParameter n (List.replicate n factors) corrs =
      some (List.range n, List.replicate n (factors.getD j 0),
        corrs.map fun r => r.getD j 0,
        qmean (corrs.map fun r => r.getD j 0)) := by
  have hmax : ∀ r ∈ corrs, listMax r = r.getD j 0 := by
    intro r hr
    exact dominant_listMax r j (by rw [hrow r hr]; exact hj) (hdom r hr)
  have hmasked : ∀ r ∈ corrs, maskedRow factors r (listMax r) = [factors.getD j 0] := by
    intro r hr
    rw [hmax r hr]
    exact maskedRow_dominant factors r j (hrow r hr).symm
      (by rw [hrow r hr]; exact hj) (hdom r hr)
  have hbest : bestHyperparameters (List.replicate n factors) corrs =
      List.replicate n (factors.getD j 0) := by
    unfold bestHyperparameters
    rw [zip_replicate_eq_map factors corrs n hn]
    have hgen : ∀ (cs : List (List ℚ)),
        (∀ r ∈ cs, maskedRow factors r (listMax r) = [factors.getD j 0]) →
        (cs.map fun r => (factors, r)).flatMap
            (fun pc => maskedRow pc.1 pc.2 (listMax pc.2)) =
          List.replicate cs.length (factors.getD j 0) := by
      intro cs
      induction cs with
      | nil => intro _; simp
      | cons r cs ih =>
        intro hall
        simp only [List.map_cons, List.flatMap_cons]
        rw [hall r (List.mem_cons_self r cs),
          ih (fun r2 h2 => hall r2 (List.mem_cons_of_mem r h2))]
        simp [List.replicate_succ]
    rw [hgen corrs hmasked, hn]
  have hsncs : corrs.map listMax = corrs.map fun r => r.getD j 0 :=
    List.map_congr_left hmax
  simp only [computeBestParameter]
  rw [hbest, hsncs, List.length_replicate, List.length_map, hn]
  simp

/-- C2, witness: a concrete table where the middle factor dominates. -/
theorem C2_witness :
    ((([[1, 5, 2], [0, 9, 3]] : List (List ℚ)).length = 2 ∧
      1 < ([1, 2, 3] : List ℚ).length) ∧
      (∀ r ∈ ([[1, 5, 2], [0, 9, 3]] : List (List ℚ)),
        r.length = ([1, 2, 3] : List ℚ).length) ∧
      (∀ r ∈ ([[1, 5, 2], [0, 9, 3]] : List (List ℚ)),
        ∀ k, k < r.length → k ≠ 1 → r.getD k 0 < r.getD 1 0)) ∧
    computeBestParameter 2 (List.replicate 2 [1, 2, 3]) [[1, 5, 2], [0, 9, 3]] =
      some ([0, 1], [2, 2], [5, 9], 7) := by
  have h3 : ∀ r ∈ ([[1, 5, 2], [0, 9, 3]] : List (List ℚ)),
      r.length = ([1, 2, 3] : List ℚ).length := by
    intro r hr
    rcases List.mem_cons.mp hr with rfl | hr
    · rfl
    rcases List.mem_cons.mp hr with rfl | hr
    · rfl
    cases hr
  have h4 : ∀ r ∈ ([[1, 5, 2], [0, 9, 3]] : List (List ℚ)),
      ∀ k, k < r.length → k ≠ 1 → r.getD k 0 < r.getD 1 0 := by
    intro r hr k hk hkj
    rcases List.mem_cons.mp hr with rfl | hr
    · have hk3 : k < 3 := by simpa using hk
      interval_cases k
      · norm_num [List.getD]
      · exact absurd rfl hkj
      · norm_num [List.getD]
    rcases List.mem_cons.mp hr with rfl | hr
    · have hk3 : k < 3 := by simpa using hk
      interval_cases k
      · norm_num [List.getD]
      · exact absurd rfl hkj
      · norm_num [List.getD]
    cases hr
  refine ⟨⟨⟨by decide, by decide⟩, h3, h4⟩, ?_⟩
  rw [C2_compute_best_parameter 2 [1, 2, 3] [[1, 5, 2], [0, 9, 3]] 1
    (by decide) (by decide) h3 h4]
  norm_num [qmean, List.getD]
  exact ⟨rfl, rfl⟩

/-- `maskedRow` keeps as many entries as the correlation row has entries
equal to the mask value, provided the rows have equal length. -/
theorem maskedRow_length : ∀ (ps cs : List ℚ) (m : ℚ),
    ps.length = cs.length →
    (maskedRow ps cs m).length = (cs.filter fun c => c = m).length := by
  intro ps
  induction ps with
  | nil =>
    intro cs m h
    cases cs with
    | nil => simp [maskedRow]
    | cons c cs => simp at h
  | cons p ps ih =>
    intro cs m h
    cases cs with
    | nil => simp at h
    | cons c cs =>
      rw [maskedRow_cons]
      by_cases hc : c = m
      · simp [hc, List.filter_cons, ih cs m (by simpa using h)]
      · simp [hc, List.filter_cons, ih cs m (by simpa using h)]

/-- A list of positive naturals has sum at least its length. -/
theorem length_le_sum (l : List Nat) (h : ∀ x ∈ l, 1 ≤ x) :
    l.length ≤ l.sum := by
  induction l with
  | nil => simp
  | cons a t ih =>
    simp only [List.length_cons, List.sum_cons]
    have ha := h a (List.mem_cons_self a t)
    have ht := ih (fun x hx => h x (List.mem_cons_of_mem a hx))
    omega

/-- A list of positive naturals containing an entry at least 2 has sum
strictly greater than its length. -/
theorem length_lt_sum (l : List Nat) (h1 : ∀ x ∈ l, 1 ≤ x)
    (h2 : ∃ x ∈ l, 2 ≤ x) : l.length < l.sum := by
  induction l with
  | nil =>
    rcases h2 with ⟨x, hx, _⟩
    cases hx
  | cons a t ih =>
    simp only [List.length_cons, List.sum_cons]
    have ha := h1 a (List.mem_cons_self a t)
    have ht := length_le_sum t (fun x hx => h1 x (List.mem_cons_of_mem a hx))
    rcases h2 with ⟨x, hx, hx2⟩
    rcases List.mem_cons.mp hx with rfl | hxt
    · omega
    · have := ih (fun y hy => h1 y (List.mem_cons_of_mem a hy)) ⟨x, hxt, hx2⟩
      omega

/-- C5, amended: when some neuron's row maximum is attained by at least
two candidates (a tie) and every row is nonempty, the masked flatten
keeps every tied winner, so more than `neuron_count` entries survive and
the `neuron_count × 1` reshape — and with it `compute_best_parameter` —
fails instead of producing one factor per neuron. -/
theorem C5_tie_breaks_reshape (n : Nat) (params corrs : List (List ℚ))
    (hp : params.length = n) (hc : corrs.length = n)
    (hlen : ∀ pc ∈ params.zip corrs, pc.1.length = pc.2.length)
    (hne : ∀ r ∈ corrs, r ≠ [])
    (htie : ∃ r ∈ corrs, 2 ≤ (r.filter fun c => c = listMax r).length) :
    computeBestParameter n params corrs = none := by
  have hL :
      (bestHyperparameters params corrs).length =
        ((params.zip corrs).map
          (fun pc => (maskedRow pc.1 pc.2 (listMax pc.2)).length)).sum := by
    simp [bestHyperparameters, List.length_flatMap, Function.comp_def]
  have hall : ∀ x ∈ (params.zip corrs).map
      (fun pc => (maskedRow pc.1 pc.2 (listMax pc.2)).length), 1 ≤ x := by
    intro x hxL
    rcases List.mem_map.mp hxL with ⟨pc, hpc, rfl⟩
    have hr2 : pc.2 ∈ corrs := (List.of_mem_zip hpc).2
    have hmem := listMax_mem pc.2 (hne pc.2 hr2)
    rw [maskedRow_length pc.1 pc.2 (listMax pc.2) (hlen pc hpc)]
    have hmemf : listMax pc.2 ∈ pc.2.filter fun c => c = listMax pc.2 :=
      List.mem_filter.mpr ⟨hmem, by simp⟩
    exact List.length_pos_of_mem hmemf
  have hex : ∃ x ∈ (params.zip corrs).map
      (fun pc => (maskedRow pc.1 pc.2 (listMax pc.2)).length), 2 ≤ x := by
    rcases htie with ⟨r, hr, h2⟩
    rcases List.mem_iff_getElem.mp hr with ⟨i, hi, rfl⟩
    have hip : i < params.length := by omega
    have hizip : i < (params.zip corrs).length := by
      rw [List.length_zip]; omega
    refine ⟨(maskedRow (params.zip corrs)[i].1 (params.zip corrs)[i].2
      (listMax (params.zip corrs)[i].2)).length, ?_, ?_⟩
    · exact List.mem_map.mpr ⟨(params.zip corrs)[i], List.getElem_mem hizip, rfl⟩
    · have hpair : (params.zip corrs)[i] = (params[i], corrs[i]) :=
        List.getElem_zip
      rw [maskedRow_length _ _ _ (hlen _ (List.getElem_mem hizip))]
      rw [hpair]
      exact h2
  have hlt := length_lt_sum _ hall hex
  have hlenL : ((params.zip corrs).map
      (fun pc => (maskedRow pc.1 pc.2 (listMax pc.2)).length)).length = n := by
    simp [List.length_zip, hp, hc]
  have hne2 : (bestHyperparameters params corrs).length ≠ n := by
    rw [hL]; omega
  simp [computeBestParameter, hne2]

/-- C5, counterexample: a one-neuron table whose two candidates tie; the
code keeps both tied winners, the `1 × 1` reshape fails, and
`compute_best_parameter` does not produce a selected factor. -/
theorem C5_tie_counterexample :
    computeBestParameter 1 [[2, 3]] [[1, 1]] = none := by
  simp [computeBestParameter, bestHyperparameters, maskedRow, listMax,
    max_self, List.filterMap_cons]

/-- C5, witness: the amended statement at a concrete two-neuron table
whose first row ties. -/
theorem C5_tie_witness :
    ((([[1, 2], [1, 2]] : List (List ℚ)).length = 2) ∧
      (([[5, 5], [3, 7]] : List (List ℚ)).length = 2) ∧
      (∀ pc ∈ ([[1, 2], [1, 2]] : List (List ℚ)).zip
        ([[5, 5], [3, 7]] : List (List ℚ)), pc.1.length = pc.2.length) ∧
      (∀ r ∈ ([[5, 5], [3, 7]] : List (List ℚ)), r ≠ []) ∧
      (∃ r ∈ ([[5, 5], [3, 7]] : List (List ℚ)),
        2 ≤ (r.filter fun c => c = listMax r).length)) ∧
    computeBestParameter 2 [[1, 2], [1, 2]] [[5, 5], [3, 7]] = none := by
  have h5 : ∃ r ∈ ([[5, 5], [3, 7]] : List (List ℚ)),
      2 ≤ (r.filter fun c => c = listMax r).length := by
    refine ⟨[5, 5], List.mem_cons_self _ _, ?_⟩
    norm_num [listMax]
  have h3 : ∀ pc ∈ ([[1, 2], [1, 2]] : List (List ℚ)).zip
      ([[5, 5], [3, 7]] : List (List ℚ)), pc.1.length = pc.2.length := by
    decide
  have h4 : ∀ r ∈ ([[5, 5], [3, 7]] : List (List ℚ)), r ≠ [] := by decide
  refine ⟨⟨by decide, by decide, h3, h4, h5⟩, ?_⟩
  exact C5_tie_breaks_reshape 2 [[1, 2], [1, 2]] [[5, 5], [3, 7]]
    (by decide) (by decide) h3 h4 h5
